import Mathlib

/-!
Shallow embedding of the Windows statusline scripts (statusline-windows.ts and
the spend report commands).  Dollar costs are modelled as rationals, timestamps
as milliseconds since the Unix epoch, and the persisted JSON files as explicit
state values passed in and out.  JavaScript date arithmetic (getMinutes,
setMinutes, toISOString, first-of-month construction) is modelled at UTC, so a
Date value is just its millisecond count and the ISO-string key stored in the
period file is identified with that count (toISOString is injective on it).
Each update function additionally returns a Bool recording whether it wrote
its backing file.
-/

namespace StatusLine

/-- Persisted period record (data/period-cost.json): `resets_at` is stored as a
normalized ISO timestamp, modelled by its millisecond value. -/
structure PeriodCostData where
  resets_at : Nat
  cost : Rat
  last_session_id : String
deriving DecidableEq, Repr

/-- Normalization of the `resets_at` timestamp to 5-minute intervals
(statusline-windows.ts lines 338-342): keep the hour part, round the minutes
field to the nearest multiple of five and zero out seconds and milliseconds.
For an integer minutes value `m` in 0..59, `Math.round(m / 5)` equals
`(m + 2) / 5` in integer division: the quotient `m / 5` is never an exact
half-integer and the float rounding error of `m / 5` is far too small to cross
a half-integer boundary.  A rounded value of 60 carries into the next hour,
exactly as JavaScript `setMinutes(60, 0, 0)` does. -/
def normalizeReset (t : Nat) : Nat :=
  let mins := t / 60000 % 60
  t - t % 3600000 + (mins + 2) / 5 * 5 * 60000

/-- `updatePeriodCost` (statusline-windows.ts lines 333-360).  `data` is the
parse of the period file (`none` when absent or unreadable), `resetsAt` is the
API reset timestamp (`none` for missing/null).  Returns the resulting persisted
record and whether `savePeriodData` was invoked.  The JavaScript guard
`if (!resetsAt || !sessionCost) return` is the `none` case plus the
`sessionCost = 0` test. -/
def updatePeriodCost (data : Option PeriodCostData) (sessionId : String)
    (sessionCost : Rat) (resetsAt : Option Nat) : Option PeriodCostData × Bool :=
  match resetsAt with
  | none => (data, false)
  | some r =>
    if sessionCost = 0 then (data, false)
    else
      let normalizedReset := normalizeReset r
      match data with
      | some d =>
        if d.resets_at = normalizedReset then
          -- Same period: add cost if new session
          if d.last_session_id ≠ sessionId then
            (some ⟨d.resets_at, d.cost + sessionCost, sessionId⟩, true)
          else
            (some d, false)
        else
          -- New period: reset cost
          (some ⟨normalizedReset, sessionCost, sessionId⟩, true)
      | none => (some ⟨normalizedReset, sessionCost, sessionId⟩, true)

/-- `getCurrentPeriodCost` (statusline-windows.ts lines 362-375): 0 when no
record is stored, 0 when `Date.now()` is strictly past the stored reset
instant, the stored cumulative cost otherwise. -/
def getCurrentPeriodCost (data : Option PeriodCostData) (now : Nat) : Rat :=
  match data with
  | none => 0
  | some d => if d.resets_at < now then 0 else d.cost

/-- Claim C4: the reset-timestamp normalization keeps the hour, lands on a
5-minute boundary with seconds and milliseconds zeroed (the result is a
multiple of 300000 ms), picks the multiple of five nearest to the minutes
field with halves rounded up (minutes remainder at most 2 rounds down,
remainder at least 3 rounds up), and is insensitive to sub-minute jitter:
any two timestamps in the same calendar minute normalize to the same key. -/
theorem c4_normalizeReset_nearest_five_minutes (t s : Nat) (hs : s < 60000) :
    normalizeReset t % 300000 = 0
    ∧ (∀ j : Nat,
        (((t / 60000 % 60 + 2) / 5 * 5 : Nat) : Int) - ((t / 60000 % 60 : Nat) : Int) ≤ 2
        ∧ ((t / 60000 % 60 : Nat) : Int) - (((t / 60000 % 60 + 2) / 5 * 5 : Nat) : Int) ≤ 2
        ∧ ((((t / 60000 % 60 + 2) / 5 * 5 : Nat) : Int) - ((t / 60000 % 60 : Nat) : Int)).natAbs
            ≤ (((j * 5 : Nat) : Int) - ((t / 60000 % 60 : Nat) : Int)).natAbs)
    ∧ (t / 60000 % 60 % 5 ≤ 2 →
        normalizeReset t = t - t % 3600000 + (t / 60000 % 60 - t / 60000 % 60 % 5) * 60000)
    ∧ (3 ≤ t / 60000 % 60 % 5 →
        normalizeReset t = t - t % 3600000 + (t / 60000 % 60 - t / 60000 % 60 % 5 + 5) * 60000)
    ∧ normalizeReset (60000 * (t / 60000) + s) = normalizeReset (60000 * (t / 60000)) := by
  refine ⟨?_, fun j => by omega, ?_, ?_, ?_⟩ <;>
    · simp only [normalizeReset]
      omega

/-- Witness for C4 at t = 2099999 (minute 34, second 59.999) and s = 59999. -/
theorem c4_normalizeReset_nearest_five_minutes_witness :
    59999 < 60000 ∧ normalizeReset 2099999 % 300000 = 0 :=
  ⟨by decide, (c4_normalizeReset_nearest_five_minutes 2099999 59999 (by decide)).1⟩

/-- Claim C5: `getCurrentPeriodCost` returns 0 when no record is persisted,
returns 0 when the stored reset instant is strictly in the past relative to
now, and otherwise returns the stored cumulative cost. -/
theorem c5_getCurrentPeriodCost_stale_is_zero (d : PeriodCostData) (now : Nat) :
    getCurrentPeriodCost none now = 0
    ∧ (d.resets_at < now → getCurrentPeriodCost (some d) now = 0)
    ∧ (¬ d.resets_at < now → getCurrentPeriodCost (some d) now = d.cost) := by
  refine ⟨rfl, fun h => ?_, fun h => ?_⟩ <;> simp [getCurrentPeriodCost, h]

/-- Witness for C5: an expired record (reset at 3, now 10) reads as 0. -/
theorem c5_getCurrentPeriodCost_stale_is_zero_witness :
    PeriodCostData.resets_at ⟨3, 7, "a"⟩ < 10
    ∧ getCurrentPeriodCost (some ⟨3, 7, "a"⟩) 10 = 0 :=
  ⟨by decide, (c5_getCurrentPeriodCost_stale_is_zero ⟨3, 7, "a"⟩ 10).2.1 (by decide)⟩

/-- Claim C6: a missing/null reset timestamp or a zero session cost makes
`updatePeriodCost` a no-op: the stored record (existing or absent) is
unchanged and no write happens. -/
theorem c6_updatePeriodCost_noop_on_missing_input (data : Option PeriodCostData)
    (sessionId : String) (sessionCost : Rat) (resetsAt : Option Nat)
    (h : resetsAt = none ∨ sessionCost = 0) :
    updatePeriodCost data sessionId sessionCost resetsAt = (data, false) := by
  rcases h with h | h
  · simp [updatePeriodCost, h]
  · cases resetsAt <;> simp [updatePeriodCost, h]

/-- Witness for C6: a zero-cost call with an existing record changes nothing. -/
theorem c6_updatePeriodCost_noop_on_missing_input_witness :
    ((some 5 : Option Nat) = none ∨ (0 : Rat) = 0)
    ∧ updatePeriodCost (some ⟨0, 1, "a"⟩) "b" 0 (some 5) = (some ⟨0, 1, "a"⟩, false) :=
  ⟨Or.inr rfl,
    c6_updatePeriodCost_noop_on_missing_input (some ⟨0, 1, "a"⟩) "b" 0 (some 5) (Or.inr rfl)⟩

/-- Claim C1 (amended: non-zero session cost): in the same normalized window,
a call with a session id different from the stored `last_session_id` and a
non-zero cost adds that cost to the cumulative total and records the new id. -/
theorem c1_updatePeriodCost_adds_new_session_cost (d : PeriodCostData)
    (sessionId : String) (sessionCost : Rat) (r : Nat)
    (hc : sessionCost ≠ 0) (hkey : normalizeReset r = d.resets_at)
    (hid : sessionId ≠ d.last_session_id) :
    updatePeriodCost (some d) sessionId sessionCost (some r)
      = (some ⟨d.resets_at, d.cost + sessionCost, sessionId⟩, true) := by
  have h1 : d.resets_at = normalizeReset r := hkey.symm
  have h2 : d.last_session_id ≠ sessionId := fun e => hid e.symm
  simp [updatePeriodCost, hc, h1, h2]

/-- Witness for C1 (amended) at a concrete record and call. -/
theorem c1_updatePeriodCost_adds_new_session_cost_witness :
    ((2 : Rat) ≠ 0) ∧ normalizeReset 5 = 0 ∧ ("b" : String) ≠ "a"
    ∧ updatePeriodCost (some ⟨0, 1, "a"⟩) "b" 2 (some 5)
        = (some ⟨0, 1 + 2, "b"⟩, true) :=
  ⟨by norm_num, by decide, by decide,
    c1_updatePeriodCost_adds_new_session_cost ⟨0, 1, "a"⟩ "b" 2 5
      (by norm_num) (by decide) (by decide)⟩

/-- Counterexample to C1 as stated: with session cost 0 the guard at line 334
makes the call a no-op, so even though the reset timestamp normalizes to the
stored key and the session id differs, `last_session_id` does not become the
new session id. -/
theorem c1_zero_cost_counterexample :
    normalizeReset 5 = PeriodCostData.resets_at ⟨0, 1, "a"⟩
    ∧ ("b" : String) ≠ "a"
    ∧ (updatePeriodCost (some ⟨0, 1, "a"⟩) "b" 0 (some 5)).1 = some ⟨0, 1, "a"⟩
    ∧ ¬ Option.map PeriodCostData.last_session_id
          (updatePeriodCost (some ⟨0, 1, "a"⟩) "b" 0 (some 5)).1 = some "b" := by
  refine ⟨by decide, by decide, rfl, by decide⟩

/-- Claim C2: with a non-null reset timestamp and non-zero session cost, when
no record is stored or the stored key differs from the newly normalized one,
the resulting record holds exactly the new session's cost, the normalized
timestamp and the new session id, and it is written. -/
theorem c2_updatePeriodCost_new_period_resets (data : Option PeriodCostData)
    (sessionId : String) (sessionCost : Rat) (r : Nat)
    (hc : sessionCost ≠ 0)
    (hnew : ∀ d, data = some d → d.resets_at ≠ normalizeReset r) :
    updatePeriodCost data sessionId sessionCost (some r)
      = (some ⟨normalizeReset r, sessionCost, sessionId⟩, true) := by
  cases data with
  | none => simp [updatePeriodCost, hc]
  | some d =>
    have h := hnew d rfl
    simp [updatePeriodCost, hc, h]

/-- Witness for C2: a stored record keyed at 0 and a reset timestamp
normalizing to 300000 start a fresh record with only the new cost. -/
theorem c2_updatePeriodCost_new_period_resets_witness :
    ((2 : Rat) ≠ 0)
    ∧ updatePeriodCost (some ⟨0, 1, "a"⟩) "b" 2 (some 300005)
        = (some ⟨300000, 2, "b"⟩, true) :=
  ⟨by norm_num,
    c2_updatePeriodCost_new_period_resets (some ⟨0, 1, "a"⟩) "b" 2 300005
      (by norm_num) (fun d hd => by cases hd; decide)⟩

/-- Claim C3: a call whose reset timestamp normalizes to the stored key and
whose session id equals the stored `last_session_id` leaves the record
unchanged and performs no write, whatever the session cost. -/
theorem c3_updatePeriodCost_same_session_noop (d : PeriodCostData)
    (sessionCost : Rat) (r : Nat) (hkey : normalizeReset r = d.resets_at) :
    updatePeriodCost (some d) d.last_session_id sessionCost (some r)
      = (some d, false) := by
  have h1 : d.resets_at = normalizeReset r := hkey.symm
  by_cases hc : sessionCost = 0
  · simp [updatePeriodCost, hc]
  · simp [updatePeriodCost, hc, h1]

/-- Witness for C3: repeating the same session in the same window is a no-op. -/
theorem c3_updatePeriodCost_same_session_noop_witness :
    normalizeReset 5 = PeriodCostData.resets_at ⟨0, 1, "a"⟩
    ∧ updatePeriodCost (some ⟨0, 1, "a"⟩) "a" 2 (some 5) = (some ⟨0, 1, "a"⟩, false) :=
  ⟨by decide, c3_updatePeriodCost_same_session_noop ⟨0, 1, "a"⟩ 2 5 (by decide)⟩

/-- A calendar day as written by `toISOString().split("T")[0]` ("YYYY-MM-DD").
JavaScript compares these as strings; on zero-padded ISO dates that string
order coincides with lexicographic order on (year, month, day), which is how
the comparison is modelled here. -/
structure DateISO where
  y : Nat
  m : Nat
  d : Nat
deriving DecidableEq, Repr

/-- String order of zero-padded ISO dates: lexicographic on (y, m, d). -/
def DateISO.le (a b : DateISO) : Prop :=
  a.y < b.y ∨ (a.y = b.y ∧ (a.m < b.m ∨ (a.m = b.m ∧ a.d ≤ b.d)))

instance : DecidableRel DateISO.le := fun a b =>
  decidable_of_iff
    (a.y < b.y ∨ (a.y = b.y ∧ (a.m < b.m ∨ (a.m = b.m ∧ a.d ≤ b.d)))) Iff.rfl

/-- `model` field of the stdin payload. -/
structure ModelInfo where
  id : String
  display_name : String

/-- `workspace` field of the stdin payload. -/
structure WorkspaceInfo where
  current_dir : String
  project_dir : String

/-- `cost` field of the stdin payload. -/
structure CostInfo where
  total_cost_usd : Rat
  total_duration_ms : Nat
  total_lines_added : Nat
  total_lines_removed : Nat

/-- The JSON payload read from standard input (interface HookInput). -/
structure HookInput where
  session_id : String
  transcript_path : String
  cwd : String
  model : ModelInfo
  workspace : WorkspaceInfo
  cost : CostInfo

/-- One record of the spend ledger (interface SpendSession). -/
structure SpendSession where
  id : String
  cost : Rat
  date : DateISO
  duration_ms : Nat
  cwd : String
deriving DecidableEq, Repr

/-- `saveSession` (statusline-windows.ts lines 269-294).  `sessions` is the
parsed ledger (`loadSpendData`), `today` the current UTC day.  Returns the new
ledger and whether `writeFile` ran.  The JavaScript guard
`if (!input.session_id || !input.cost.total_cost_usd) return` is the empty
string / zero cost test. -/
def saveSession (sessions : List SpendSession) (input : HookInput)
    (today : DateISO) : List SpendSession × Bool :=
  if input.session_id = "" ∨ input.cost.total_cost_usd = 0 then (sessions, false)
  else
    let session : SpendSession :=
      ⟨input.session_id, input.cost.total_cost_usd, today,
        input.cost.total_duration_ms, input.cwd⟩
    match sessions.findIdx? (fun s => s.id == input.session_id) with
    | some idx => (sessions.set idx session, true)
    | none => (sessions ++ [session], true)

/-- Number of ledger records carrying the given session id. -/
def idCount (sid : String) (l : List SpendSession) : Nat :=
  l.countP (fun s => s.id == sid)

/-- Replace the first record with the same id, else append: the recursive
reading of `findIndex` followed by index assignment or `push`. -/
def upsertRec (x : SpendSession) : List SpendSession → List SpendSession
  | [] => [x]
  | s :: rest => if s.id == x.id then x :: rest else s :: upsertRec x rest

theorem findIdx_upsert_eq (sid : String) (x : SpendSession) (hx : x.id = sid)
    (l : List SpendSession) :
    (match l.findIdx? (fun s => s.id == sid) with
      | some idx => l.set idx x
      | none => l ++ [x]) = upsertRec x l := by
  subst hx
  induction l with
  | nil => rfl
  | cons a rest ih =>
    rw [List.findIdx?_cons]
    by_cases h : (a.id == x.id) = true
    · simp [h, upsertRec]
    · rw [if_neg h, List.findIdx?_succ]
      rw [Bool.not_eq_true] at h
      cases hf : rest.findIdx? (fun s => s.id == x.id) with
      | none =>
        rw [hf] at ih
        simp only [] at ih
        simp [upsertRec, h, ih]
      | some k =>
        rw [hf] at ih
        simp only [] at ih
        simp [upsertRec, h, List.set_cons_succ, ih]

theorem saveSession_eq_upsertRec (sessions : List SpendSession) (input : HookInput)
    (today : DateISO) (h1 : ¬ input.session_id = "")
    (h2 : ¬ input.cost.total_cost_usd = 0) :
    saveSession sessions input today
      = (upsertRec
          ⟨input.session_id, input.cost.total_cost_usd, today,
            input.cost.total_duration_ms, input.cwd⟩ sessions, true) := by
  unfold saveSession
  rw [if_neg (by tauto)]
  have h := findIdx_upsert_eq input.session_id
    ⟨input.session_id, input.cost.total_cost_usd, today,
      input.cost.total_duration_ms, input.cwd⟩ rfl sessions
  cases hf : sessions.findIdx? (fun s => s.id == input.session_id) <;>
    rw [hf] at h <;> simp only [hf, ← h]

theorem idCount_upsertRec_self (x : SpendSession) (l : List SpendSession)
    (h : idCount x.id l ≤ 1) : idCount x.id (upsertRec x l) = 1 := by
  induction l with
  | nil => simp [idCount, upsertRec]
  | cons a rest ih =>
    simp only [idCount] at h ih ⊢
    by_cases hb : (a.id == x.id) = true
    · have h0 : List.countP (fun s => s.id == x.id) rest = 0 := by
        simp [List.countP_cons, hb] at h
        simpa [List.countP_eq_zero] using h
      simp [upsertRec, hb, List.countP_cons, h0]
    · rw [Bool.not_eq_true] at hb
      simp [List.countP_cons, hb] at h
      simp [upsertRec, hb, List.countP_cons, ih (by omega)]

theorem idCount_upsertRec_other (x : SpendSession) (l : List SpendSession)
    (sid : String) (hne : sid ≠ x.id) :
    idCount sid (upsertRec x l) = idCount sid l := by
  have hx : (x.id == sid) = false := by
    simp only [beq_eq_false_iff_ne]
    exact fun e => hne e.symm
  induction l with
  | nil => simp [idCount, upsertRec, hx]
  | cons a rest ih =>
    simp only [idCount] at ih ⊢
    by_cases hb : (a.id == x.id) = true
    · have ha : a.id = x.id := by simpa using hb
      simp [upsertRec, hb, List.countP_cons, hx, ha]
    · rw [Bool.not_eq_true] at hb
      simp [upsertRec, hb, List.countP_cons, ih]

/-- Claim C7 (amended: non-empty session id): upserting a record with cost > 0
and a non-empty id twice leaves exactly one ledger record with that id, and
the at-most-one-record-per-id invariant is preserved. -/
theorem c7_saveSession_upsert_idempotent (sessions : List SpendSession)
    (input : HookInput) (today : DateISO)
    (hinv : ∀ sid, idCount sid sessions ≤ 1)
    (hcost : 0 < input.cost.total_cost_usd)
    (hid : input.session_id ≠ "") :
    idCount input.session_id
        (saveSession (saveSession sessions input today).1 input today).1 = 1
    ∧ ∀ sid, idCount sid
        (saveSession (saveSession sessions input today).1 input today).1 ≤ 1 := by
  have hc : ¬ input.cost.total_cost_usd = 0 := fun e => absurd e.symm hcost.ne
  rw [saveSession_eq_upsertRec sessions input today hid hc]
  rw [saveSession_eq_upsertRec _ input today hid hc]
  set x : SpendSession :=
    ⟨input.session_id, input.cost.total_cost_usd, today,
      input.cost.total_duration_ms, input.cwd⟩ with hxdef
  have hxid : x.id = input.session_id := rfl
  have h1 : idCount input.session_id (upsertRec x sessions) = 1 := by
    rw [← hxid]
    exact idCount_upsertRec_self x sessions (hxid ▸ hinv input.session_id)
  constructor
  · rw [← hxid]
    exact idCount_upsertRec_self x (upsertRec x sessions)
      (le_of_eq (hxid ▸ h1))
  · intro sid
    by_cases hs : sid = x.id
    · rw [hs, idCount_upsertRec_self x (upsertRec x sessions)
        (le_of_eq (hxid ▸ h1))]
    · rw [idCount_upsertRec_other x _ sid hs, idCount_upsertRec_other x _ sid hs]
      exact hinv sid

/-- Witness for C7 (amended): upserting the same record twice into an empty
ledger leaves one record with its id. -/
theorem c7_saveSession_upsert_idempotent_witness :
    (0 : Rat) < 1 ∧ ("s1" : String) ≠ ""
    ∧ idCount "s1"
        (saveSession
          (saveSession [] ⟨"s1", "", "c", ⟨"m", "M"⟩, ⟨"c", "p"⟩, ⟨1, 2, 0, 0⟩⟩
            ⟨2025, 10, 11⟩).1
          ⟨"s1", "", "c", ⟨"m", "M"⟩, ⟨"c", "p"⟩, ⟨1, 2, 0, 0⟩⟩ ⟨2025, 10, 11⟩).1 = 1 :=
  ⟨by norm_num, by decide,
    (c7_saveSession_upsert_idempotent []
      ⟨"s1", "", "c", ⟨"m", "M"⟩, ⟨"c", "p"⟩, ⟨1, 2, 0, 0⟩⟩ ⟨2025, 10, 11⟩
      (fun _ => by simp [idCount]) (by norm_num) (by decide)).1⟩

/-- Counterexample to C7 as stated: a record with cost 1 but an empty session
id is rejected by the guard at line 270, so after two upserts the ledger still
has no record with that id, not exactly one. -/
theorem c7_empty_id_counterexample :
    (0 : Rat) < 1
    ∧ idCount ""
        (saveSession
          (saveSession [] ⟨"", "", "c", ⟨"m", "M"⟩, ⟨"c", "p"⟩, ⟨1, 2, 0, 0⟩⟩
            ⟨2025, 10, 11⟩).1
          ⟨"", "", "c", ⟨"m", "M"⟩, ⟨"c", "p"⟩, ⟨1, 2, 0, 0⟩⟩ ⟨2025, 10, 11⟩).1 = 0 := by
  refine ⟨by norm_num, ?_⟩
  simp [saveSession, idCount]

/-- Claim C10: an input with an empty session id or a zero total cost leaves
the ledger untouched and writes nothing. -/
theorem c10_saveSession_noop_on_invalid_input (sessions : List SpendSession)
    (input : HookInput) (today : DateISO)
    (h : input.session_id = "" ∨ input.cost.total_cost_usd = 0) :
    saveSession sessions input today = (sessions, false) := by
  unfold saveSession
  rw [if_pos h]

/-- Witness for C10: a zero-cost session does not enter a one-record ledger. -/
theorem c10_saveSession_noop_on_invalid_input_witness :
    (("x" : String) = "" ∨ (0 : Rat) = 0)
    ∧ saveSession [⟨"a", 1, ⟨2025, 10, 11⟩, 5, "w"⟩]
        ⟨"x", "", "c", ⟨"m", "M"⟩, ⟨"c", "p"⟩, ⟨0, 2, 0, 0⟩⟩ ⟨2025, 10, 11⟩
        = ([⟨"a", 1, ⟨2025, 10, 11⟩, 5, "w"⟩], false) :=
  ⟨Or.inr rfl,
    c10_saveSession_noop_on_invalid_input [⟨"a", 1, ⟨2025, 10, 11⟩, 5, "w"⟩]
      ⟨"x", "", "c", ⟨"m", "M"⟩, ⟨"c", "p"⟩, ⟨0, 2, 0, 0⟩⟩ ⟨2025, 10, 11⟩
      (Or.inr rfl)⟩

/-- `message.usage` object of a transcript record; the three fields read by
the scanner, each possibly absent (the `|| 0` default applies on read). -/
structure Usage where
  input_tokens : Option Nat
  cache_read_input_tokens : Option Nat
  cache_creation_input_tokens : Option Nat
deriving DecidableEq, Repr

/-- One successfully parsed transcript line.  `usage` is `data.message?.usage`
(`none` when either level is absent); `timestamp` is `none` when the field is
missing or empty (falsy in the line-203 guard), otherwise the parsed instant
in milliseconds. -/
structure TranscriptRecord where
  usage : Option Usage
  isSidechain : Bool
  isApiErrorMessage : Bool
  timestamp : Option Nat
deriving DecidableEq, Repr

/-- `(u.input_tokens || 0) + (u.cache_read_input_tokens || 0) +
(u.cache_creation_input_tokens || 0)` (line 208). -/
def tokenSum (u : Usage) : Nat :=
  u.input_tokens.getD 0 + u.cache_read_input_tokens.getD 0
    + u.cache_creation_input_tokens.getD 0

/-- Loop body of `getContextTokens` (lines 200-211) on the accumulator
(tokens, latest).  A line that failed `JSON.parse` is `none` and is skipped
(the empty catch); a parsed record is skipped unless it carries a usage and a
timestamp and is neither sidechain nor error-marked; otherwise its token sum
replaces the accumulator whenever its time is strictly later than the latest
seen (or nothing was seen yet). -/
def contextStep (acc : Nat × Option Nat) (line : Option TranscriptRecord) :
    Nat × Option Nat :=
  match line with
  | none => acc
  | some data =>
    match data.usage, data.timestamp with
    | some u, some time =>
      if data.isSidechain || data.isApiErrorMessage then acc
      else
        match acc.2 with
        | none => (tokenSum u, some time)
        | some latest => if latest < time then (tokenSum u, some time) else acc
    | _, _ => acc

/-- `getContextTokens` (lines 191-216): `none` models an absent or unreadable
transcript file, `some lines` the per-line parse results of its content. -/
def getContextTokens : Option (List (Option TranscriptRecord)) → Nat
  | none => 0
  | some lines => (lines.foldl contextStep (0, none)).1

/-- The (timestamp, token-sum) pair of a line that passes every guard of the
scanner loop, `none` for a skipped line. -/
def validEntry (line : Option TranscriptRecord) : Option (Nat × Nat) :=
  match line with
  | none => none
  | some data =>
    match data.usage, data.timestamp with
    | some u, some time =>
      if data.isSidechain || data.isApiErrorMessage then none
      else some (time, tokenSum u)
    | _, _ => none

/-- All usage-bearing, non-sidechain, non-error records of a transcript. -/
def validRecords (lines : List (Option TranscriptRecord)) : List (Nat × Nat) :=
  lines.filterMap validEntry

/-- `contextStep` restricted to the records that pass the guards. -/
def maxStep (acc : Nat × Option Nat) (p : Nat × Nat) : Nat × Option Nat :=
  match acc.2 with
  | none => (p.2, some p.1)
  | some latest => if latest < p.1 then (p.2, some p.1) else acc

theorem contextStep_eq_validEntry (acc : Nat × Option Nat)
    (line : Option TranscriptRecord) :
    contextStep acc line
      = match validEntry line with
        | none => acc
        | some p => maxStep acc p := by
  cases line with
  | none => rfl
  | some data =>
    obtain ⟨u?, sc, er, ts?⟩ := data
    cases u? <;> cases ts? <;> try rfl
    by_cases hf : (sc || er) = true <;>
      simp [contextStep, validEntry, maxStep, hf]

theorem foldl_contextStep_eq (lines : List (Option TranscriptRecord))
    (acc : Nat × Option Nat) :
    lines.foldl contextStep acc = (validRecords lines).foldl maxStep acc := by
  induction lines generalizing acc with
  | nil => rfl
  | cons line rest ih =>
    rw [List.foldl_cons, contextStep_eq_validEntry]
    cases hv : validEntry line with
    | none => simp [validRecords, List.filterMap_cons, hv, ih]
    | some p =>
      simp [validRecords, List.filterMap_cons, hv, List.foldl_cons]
      exact ih (maxStep acc p)

theorem maxStep_fold_inv (ps : List (Nat × Nat)) (t0 : Nat) (m0 : Option Nat) :
    (∀ p ∈ ps, ∃ v, (ps.foldl maxStep (t0, m0)).2 = some v ∧ p.1 ≤ v)
    ∧ (ps.foldl maxStep (t0, m0) = (t0, m0)
       ∨ ∃ p ∈ ps, ps.foldl maxStep (t0, m0) = (p.2, some p.1)
           ∧ ∀ m, m0 = some m → m < p.1) := by
  induction ps generalizing t0 m0 with
  | nil => exact ⟨by simp, Or.inl rfl⟩
  | cons p ps ih =>
    rw [List.foldl_cons]
    cases m0 with
    | none =>
      have hstep : maxStep (t0, none) p = (p.2, some p.1) := rfl
      rw [hstep]
      obtain ⟨ih1, ih2⟩ := ih p.2 (some p.1)
      constructor
      · intro q hq
        rcases List.mem_cons.1 hq with rfl | hq
        · rcases ih2 with h | ⟨p', hp', heq, hl⟩
          · exact ⟨q.1, by rw [h], le_refl _⟩
          · exact ⟨p'.1, by rw [heq], le_of_lt (hl q.1 rfl)⟩
        · exact ih1 q hq
      · rcases ih2 with h | ⟨p', hp', heq, hl⟩
        · exact Or.inr ⟨p, List.mem_cons_self p ps, h, fun m hm => nomatch hm⟩
        · exact Or.inr ⟨p', List.mem_cons_of_mem p hp', heq, fun m hm => nomatch hm⟩
    | some m =>
      by_cases hlt : m < p.1
      · have hstep : maxStep (t0, some m) p = (p.2, some p.1) := by
          simp [maxStep, hlt]
        rw [hstep]
        obtain ⟨ih1, ih2⟩ := ih p.2 (some p.1)
        constructor
        · intro q hq
          rcases List.mem_cons.1 hq with rfl | hq
          · rcases ih2 with h | ⟨p', hp', heq, hl⟩
            · exact ⟨q.1, by rw [h], le_refl _⟩
            · exact ⟨p'.1, by rw [heq], le_of_lt (hl q.1 rfl)⟩
          · exact ih1 q hq
        · rcases ih2 with h | ⟨p', hp', heq, hl⟩
          · refine Or.inr ⟨p, List.mem_cons_self p ps, h, fun m' hm' => ?_⟩
            injection hm' with hm'
            omega
          · refine Or.inr ⟨p', List.mem_cons_of_mem p hp', heq, fun m' hm' => ?_⟩
            injection hm' with hm'
            have := hl p.1 rfl
            omega
      · have hstep : maxStep (t0, some m) p = (t0, some m) := by
          simp [maxStep, hlt]
        rw [hstep]
        obtain ⟨ih1, ih2⟩ := ih t0 (some m)
        constructor
        · intro q hq
          rcases List.mem_cons.1 hq with rfl | hq
          · rcases ih2 with h | ⟨p', hp', heq, hl⟩
            · exact ⟨m, by rw [h], by omega⟩
            · have := hl m rfl
              exact ⟨p'.1, by rw [heq], by omega⟩
          · exact ih1 q hq
        · rcases ih2 with h | ⟨p', hp', heq, hl⟩
          · exact Or.inl h
          · exact Or.inr ⟨p', List.mem_cons_of_mem p hp', heq, hl⟩

/-- Claim C8: the scanner returns 0 for an absent file and for a transcript
with no valid usage record; otherwise it returns the token sum (input +
cache-read + cache-creation) of a usage-bearing, non-sidechain, non-error
record whose timestamp is maximal among all such records; and lines that fail
to parse are skipped silently, leaving the result unchanged. -/
theorem c8_getContextTokens_latest_usage (l1 l2 : List (Option TranscriptRecord)) :
    getContextTokens none = 0
    ∧ (validRecords l1 = [] → getContextTokens (some l1) = 0)
    ∧ (validRecords l1 ≠ [] →
        ∃ p ∈ validRecords l1, getContextTokens (some l1) = p.2
          ∧ ∀ q ∈ validRecords l1, q.1 ≤ p.1)
    ∧ getContextTokens (some (l1 ++ none :: l2)) = getContextTokens (some (l1 ++ l2)) := by
  refine ⟨rfl, ?_, ?_, ?_⟩
  · intro h
    simp [getContextTokens, foldl_contextStep_eq, h]
  · intro h
    obtain ⟨inv1, inv2⟩ := maxStep_fold_inv (validRecords l1) 0 none
    rcases inv2 with heq | ⟨p, hp, heq, _⟩
    · obtain ⟨q, hq⟩ := List.exists_mem_of_ne_nil _ h
      obtain ⟨v, hv, _⟩ := inv1 q hq
      rw [heq] at hv
      exact absurd hv (by simp)
    · refine ⟨p, hp, ?_, ?_⟩
      · simp [getContextTokens, foldl_contextStep_eq, heq]
      · intro q hq
        obtain ⟨v, hv, hle⟩ := inv1 q hq
        rw [heq] at hv
        injection hv with hv
        omega
  · have hnone : ∀ acc : Nat × Option Nat, contextStep acc none = acc := fun _ => rfl
    simp [getContextTokens, List.foldl_append, List.foldl_cons, hnone]

/-- Witness for C8: a transcript consisting of one unparsable line has no
valid record and reports 0 context tokens. -/
theorem c8_getContextTokens_latest_usage_witness :
    validRecords [none] = [] ∧ getContextTokens (some [none]) = 0 :=
  ⟨by decide, (c8_getContextTokens_latest_usage [none] []).2.1 (by decide)⟩

/-- Total cost of a list of session records. -/
def totalCost (l : List SpendSession) : Rat :=
  (l.map (fun s => s.cost)).sum

/-- One step of the grouping `Map` of spend-month-win.ts (lines 47-52):
`const existing = byDate.get(session.date) || []; existing.push(session);
byDate.set(session.date, existing)`.  A JavaScript `Map` keeps key insertion
order: an existing key keeps its place, a new key is appended, which the
association list mirrors. -/
def addToGroup : List (DateISO × List SpendSession) → SpendSession →
    List (DateISO × List SpendSession)
  | [], s => [(s.date, [s])]
  | (d, gs) :: rest, s =>
    if d = s.date then (d, gs ++ [s]) :: rest
    else (d, gs) :: addToGroup rest s

/-- The `byDate` map after the grouping loop over the month's sessions. -/
def groupByDate (sessions : List SpendSession) : List (DateISO × List SpendSession) :=
  sessions.foldl addToGroup []

/-- Descending date comparator `(a, b) => b.localeCompare(a)` of line 62:
`dateGe a b` means a is on or after b (en-US locale comparison of ASCII ISO
date strings is plain string order). -/
def dateGe (a b : DateISO) : Prop := DateISO.le b a

instance : DecidableRel dateGe := fun a b =>
  inferInstanceAs (Decidable (DateISO.le b a))

theorem dateLe_total (a b : DateISO) : DateISO.le a b ∨ DateISO.le b a := by
  unfold DateISO.le
  omega

theorem dateLe_trans (a b c : DateISO) :
    DateISO.le a b → DateISO.le b c → DateISO.le a c := by
  unfold DateISO.le
  omega

instance : IsTotal DateISO dateGe := ⟨fun a b => dateLe_total b a⟩

instance : IsTrans DateISO dateGe :=
  ⟨fun _ _ _ hab hbc => dateLe_trans _ _ _ hbc hab⟩

/-- Cost subtotal printed for one day: the sum over `byDate.get(date)`
(lines 64-72). -/
def dayCostIn (byDate : List (DateISO × List SpendSession)) (d : DateISO) : Rat :=
  totalCost ((byDate.lookup d).getD [])

/-- Result of the month report `main` (spend-month-win.ts lines 32-98). -/
structure MonthReport where
  monthSessions : List SpendSession
  byDate : List (DateISO × List SpendSession)
  sortedDates : List DateISO
  grandTotal : Rat

/-- The computation of `main`: `monthStart` is the ISO day of the first of the
current month (date arithmetic modelled at UTC), `monthSessions` the records
with `s.date >= monthStart`, `byDate` the insertion-ordered grouping,
`sortedDates` the keys sorted descending (keys are distinct, so any sorting
algorithm yields the JavaScript result), and `grandTotal` the accumulated
per-day subtotals. -/
def monthReport (sessions : List SpendSession) (nowY nowM : Nat) : MonthReport :=
  let monthStart : DateISO := ⟨nowY, nowM, 1⟩
  let monthSessions := sessions.filter (fun s => decide (DateISO.le monthStart s.date))
  let byDate := groupByDate monthSessions
  let sortedDates := List.insertionSort dateGe (byDate.map Prod.fst)
  let grandTotal := (sortedDates.map (dayCostIn byDate)).sum
  ⟨monthSessions, byDate, sortedDates, grandTotal⟩

/-- A date in the month immediately before month `nowM` of year `nowY`. -/
def prevMonth (a : DateISO) (nowY nowM : Nat) : Prop :=
  (a.y = nowY ∧ a.m + 1 = nowM) ∨ (a.y + 1 = nowY ∧ nowM = 1 ∧ a.m = 12)

instance (a : DateISO) (nowY nowM : Nat) : Decidable (prevMonth a nowY nowM) :=
  decidable_of_iff
    ((a.y = nowY ∧ a.m + 1 = nowM) ∨ (a.y + 1 = nowY ∧ nowM = 1 ∧ a.m = 12)) Iff.rfl

/-- Sum of the per-bucket cost subtotals of a grouping. -/
def groupsCost (gs : List (DateISO × List SpendSession)) : Rat :=
  (gs.map (fun g => totalCost g.2)).sum

theorem groupsCost_addToGroup (acc : List (DateISO × List SpendSession))
    (s : SpendSession) : groupsCost (addToGroup acc s) = groupsCost acc + s.cost := by
  induction acc with
  | nil => simp [addToGroup, groupsCost, totalCost]
  | cons g rest ih =>
    obtain ⟨d, gs⟩ := g
    by_cases h : d = s.date
    · simp only [addToGroup, h, if_true, groupsCost, List.map_cons, List.sum_cons,
        totalCost, List.map_append, List.sum_append, List.map_cons, List.sum_cons,
        List.map_nil, List.sum_nil]
      ring
    · simp only [addToGroup, h, if_false, groupsCost, List.map_cons, List.sum_cons]
      simp only [groupsCost] at ih
      rw [ih]
      ring

theorem groupsCost_foldl (sessions : List SpendSession)
    (acc : List (DateISO × List SpendSession)) :
    groupsCost (sessions.foldl addToGroup acc) = groupsCost acc + totalCost sessions := by
  induction sessions generalizing acc with
  | nil => simp [totalCost]
  | cons s rest ih =>
    rw [List.foldl_cons, ih, groupsCost_addToGroup]
    simp only [totalCost, List.map_cons, List.sum_cons]
    ring

theorem keys_addToGroup_of_mem (acc : List (DateISO × List SpendSession))
    (s : SpendSession) (h : s.date ∈ acc.map Prod.fst) :
    (addToGroup acc s).map Prod.fst = acc.map Prod.fst := by
  induction acc with
  | nil => simp at h
  | cons g rest ih =>
    obtain ⟨d, gs⟩ := g
    by_cases hd : d = s.date
    · simp [addToGroup, hd]
    · have : s.date ∈ rest.map Prod.fst := by
        simp only [List.map_cons, List.mem_cons] at h
        exact h.resolve_left (fun e => hd e.symm)
      simp [addToGroup, hd, ih this]

theorem keys_addToGroup_of_not_mem (acc : List (DateISO × List SpendSession))
    (s : SpendSession) (h : s.date ∉ acc.map Prod.fst) :
    (addToGroup acc s).map Prod.fst = acc.map Prod.fst ++ [s.date] := by
  induction acc with
  | nil => rfl
  | cons g rest ih =>
    obtain ⟨d, gs⟩ := g
    simp only [List.map_cons, List.mem_cons] at h
    push_neg at h
    by_cases hd : d = s.date
    · exact absurd hd.symm h.1
    · simp [addToGroup, hd, ih h.2]

theorem nodup_keys_addToGroup (acc : List (DateISO × List SpendSession))
    (s : SpendSession) (h : (acc.map Prod.fst).Nodup) :
    ((addToGroup acc s).map Prod.fst).Nodup := by
  by_cases hm : s.date ∈ acc.map Prod.fst
  · rw [keys_addToGroup_of_mem acc s hm]
    exact h
  · rw [keys_addToGroup_of_not_mem acc s hm]
    simp [List.nodup_append, h, hm]

theorem nodup_keys_groupByDate (sessions : List SpendSession) :
    ((groupByDate sessions).map Prod.fst).Nodup := by
  have main : ∀ acc, (acc.map (Prod.fst (α := DateISO) (β := List SpendSession))).Nodup →
      ((sessions.foldl addToGroup acc).map Prod.fst).Nodup := by
    induction sessions with
    | nil => exact fun acc h => h
    | cons s rest ih =>
      intro acc h
      rw [List.foldl_cons]
      exact ih _ (nodup_keys_addToGroup acc s h)
  exact main [] (by simp)

theorem bucketsOk_addToGroup (acc : List (DateISO × List SpendSession))
    (s : SpendSession) (h : ∀ g ∈ acc, ∀ x ∈ g.2, x.date = g.1) :
    ∀ g ∈ addToGroup acc s, ∀ x ∈ g.2, x.date = g.1 := by
  induction acc with
  | nil =>
    intro g hg x hx
    simp only [addToGroup, List.mem_singleton] at hg
    subst hg
    simp only [List.mem_singleton] at hx
    subst hx
    rfl
  | cons g0 rest ih =>
    obtain ⟨d, gs⟩ := g0
    by_cases hd : d = s.date
    · subst hd
      intro g hg x hx
      simp only [addToGroup, eq_self_iff_true, if_true, List.mem_cons] at hg
      rcases hg with rfl | hg
      · have hx' : x ∈ gs ++ [s] := hx
        simp only [List.mem_append, List.mem_singleton] at hx'
        rcases hx' with hx' | rfl
        · exact h (s.date, gs) (List.mem_cons_self _ _) x hx'
        · rfl
      · exact h g (List.mem_cons_of_mem _ hg) x hx
    · intro g hg x hx
      simp only [addToGroup, hd, if_false, List.mem_cons] at hg
      rcases hg with rfl | hg
      · exact h (d, gs) (List.mem_cons_self _ _) x hx
      · exact ih (fun g' hg' => h g' (List.mem_cons_of_mem _ hg')) g hg x hx

theorem bucketsOk_groupByDate (sessions : List SpendSession) :
    ∀ g ∈ groupByDate sessions, ∀ x ∈ g.2, x.date = g.1 := by
  have main : ∀ acc, (∀ g ∈ acc, ∀ x ∈ g.2, x.date = g.1) →
      ∀ g ∈ sessions.foldl addToGroup acc, ∀ x ∈ g.2, x.date = g.1 := by
    induction sessions with
    | nil => exact fun acc h => h
    | cons s rest ih =>
      intro acc h
      rw [List.foldl_cons]
      exact ih _ (bucketsOk_addToGroup acc s h)
  exact main [] (by simp)

theorem map_dayCost_keys (gs : List (DateISO × List SpendSession))
    (h : (gs.map Prod.fst).Nodup) :
    (gs.map Prod.fst).map (dayCostIn gs) = gs.map (fun g => totalCost g.2) := by
  induction gs with
  | nil => rfl
  | cons g rest ih =>
    obtain ⟨d, b⟩ := g
    simp only [List.map_cons, List.nodup_cons, List.mem_map] at h
    simp only [List.map_cons]
    have hhead : dayCostIn ((d, b) :: rest) d = totalCost b := by
      simp [dayCostIn, List.lookup]
    have htail : ∀ d' ∈ rest.map Prod.fst,
        dayCostIn ((d, b) :: rest) d' = dayCostIn rest d' := by
      intro d' hd'
      obtain ⟨a, ha, had⟩ := List.mem_map.1 hd'
      have hne : (d' == d) = false := by
        simp only [beq_eq_false_iff_ne]
        intro e
        exact h.1 ⟨a, ha, by rw [had, e]⟩
      simp [dayCostIn, List.lookup, hne]
    rw [hhead, List.map_congr_left htail, ih h.2]

theorem month_filter (sessions : List SpendSession) (nowY nowM : Nat)
    (hd : ∀ s ∈ sessions, 1 ≤ s.date.d)
    (hm : ∀ s ∈ sessions,
      (s.date.y = nowY ∧ s.date.m = nowM) ∨ prevMonth s.date nowY nowM) :
    sessions.filter (fun s => decide (DateISO.le ⟨nowY, nowM, 1⟩ s.date))
      = sessions.filter (fun s => decide (s.date.y = nowY ∧ s.date.m = nowM)) := by
  apply List.filter_congr
  intro s hs
  have h1 := hd s hs
  have h2 := hm s hs
  simp only [decide_eq_decide]
  simp only [DateISO.le, prevMonth] at h2 ⊢
  omega

theorem grandTotal_eq_totalCost (ms : List SpendSession) :
    ((List.insertionSort dateGe ((groupByDate ms).map Prod.fst)).map
        (dayCostIn (groupByDate ms))).sum = totalCost ms := by
  have hperm := (List.perm_insertionSort dateGe
    ((groupByDate ms).map Prod.fst)).map (dayCostIn (groupByDate ms))
  rw [hperm.sum_eq, map_dayCost_keys _ (nodup_keys_groupByDate ms)]
  simpa [groupByDate, groupsCost] using groupsCost_foldl ms []

/-- Claim C9: when every ledger record is dated in the current or the previous
month (with a well-formed day field), the month report keeps exactly the
current-month records, sorts the day groups newest first, groups records under
their own date, computes the grand total as the sum of the per-day subtotals,
and that grand total equals the total cost of the kept current-month records. -/
theorem c9_month_report_current_month (sessions : List SpendSession)
    (nowY nowM : Nat)
    (hd : ∀ s ∈ sessions, 1 ≤ s.date.d)
    (hm : ∀ s ∈ sessions,
      (s.date.y = nowY ∧ s.date.m = nowM) ∨ prevMonth s.date nowY nowM) :
    (monthReport sessions nowY nowM).monthSessions
        = sessions.filter (fun s => decide (s.date.y = nowY ∧ s.date.m = nowM))
    ∧ List.Sorted dateGe (monthReport sessions nowY nowM).sortedDates
    ∧ (∀ g ∈ (monthReport sessions nowY nowM).byDate, ∀ x ∈ g.2, x.date = g.1)
    ∧ (monthReport sessions nowY nowM).grandTotal
        = ((monthReport sessions nowY nowM).sortedDates.map
            (dayCostIn (monthReport sessions nowY nowM).byDate)).sum
    ∧ (monthReport sessions nowY nowM).grandTotal
        = totalCost (monthReport sessions nowY nowM).monthSessions := by
  refine ⟨month_filter sessions nowY nowM hd hm, ?_, ?_, rfl, ?_⟩
  · exact List.sorted_insertionSort dateGe _
  · exact bucketsOk_groupByDate _
  · exact grandTotal_eq_totalCost _

/-- Witness for C9 on a two-record ledger: one session in October 2025 and
one in September 2025. -/
theorem c9_month_report_current_month_witness :
    (monthReport
        [⟨"a", 2, ⟨2025, 10, 5⟩, 3, "w"⟩, ⟨"b", 3, ⟨2025, 9, 30⟩, 4, "w"⟩]
        2025 10).grandTotal
      = totalCost (monthReport
        [⟨"a", 2, ⟨2025, 10, 5⟩, 3, "w"⟩, ⟨"b", 3, ⟨2025, 9, 30⟩, 4, "w"⟩]
        2025 10).monthSessions :=
  (c9_month_report_current_month
    [⟨"a", 2, ⟨2025, 10, 5⟩, 3, "w"⟩, ⟨"b", 3, ⟨2025, 9, 30⟩, 4, "w"⟩]
    2025 10 (by decide) (by decide)).2.2.2.2

end StatusLine
